import Mathlib

/-!
Shallow embedding of the smoothed n-gram language model declared in
`include/model/ngram_distribution.h` (absolute-discounting smoothing with
recursive backoff down to the unigram level), together with theorems settling
the specification claims.  The template implementation file
`ngram_distribution.tcc` is not among the sources; operations whose bodies
live only there are modelled from the specification, as marked in their doc
comments.  Counts are `Nat`, probabilities are `ℚ` (the C++ `double`
arithmetic on these values is exact rational arithmetic for the operations
involved), and the two `unordered_map` levels are association lists.
-/

/-- A token: a word, POS tag, function word or character unit. -/
abbrev Token := String

/-- A context: the ordered sequence of up to N-1 preceding tokens
(the structural key demanded by the spec; see `to_prev`). -/
abbrev Context := List Token

/-- `FreqMap`: context → (token → occurrence count), as an association list. -/
abbrev FreqMap := List (Context × List (Token × Nat))

/-- `ProbMap`: context → (token → probability), as an association list. -/
abbrev ProbMap := List (Context × List (Token × ℚ))

/-- Association-list lookup (first entry with the given key). -/
def lookupA {α β : Type} [DecidableEq α] : List (α × β) → α → Option β
  | [], _ => none
  | p :: t, k => if p.1 = k then some p.2 else lookupA t k

/-- Modelled from the spec: `to_prev` (body in the missing `.tcc`) converts the
deque of preceding tokens into the key under which a context is stored; the
spec requires a structural key — an ordered token tuple — never a naively
delimiter-joined string. -/
def to_prev (ngram : List Token) : Context := ngram

/-- The naive delimiter-joined string encoding of a context, which the spec
forbids because of collisions when a token contains the delimiter. -/
def naive_join (ngram : List Token) : String := String.intercalate " " ngram

/-- Increment the count of token `w` in the inner (token → count) list. -/
def bump_inner : List (Token × Nat) → Token → List (Token × Nat)
  | [], w => [(w, 1)]
  | q :: t, w => if q.1 = w then (q.1, q.2 + 1) :: t else q :: bump_inner t w

/-- Increment `freq[c][w]` in a `FreqMap`. -/
def bump : FreqMap → Context → Token → FreqMap
  | [], c, w => [(c, [(w, 1)])]
  | p :: t, c, w => if p.1 = c then (p.1, bump_inner p.2 w) :: t else p :: bump t c w

/-- All windows of width `n` over the token sequence, each split into its
context (first `n-1` tokens) and target token (last token). -/
def windows (n : Nat) : List Token → List (Context × Token)
  | [] => []
  | t :: ts =>
      if n = 0 ∨ (t :: ts).length < n then []
      else (to_prev ((t :: ts).take (n - 1)), (t :: ts).getD (n - 1) "") :: windows n ts

/-- Modelled from the spec: `calc_freqs` (body in the missing `.tcc`) slides an
`n`-wide window over the training tokens, incrementing `freq[context][target]`
for every window; a document shorter than `n` yields an empty map. -/
def calc_freqs (n : Nat) (tokens : List Token) : FreqMap :=
  (windows n tokens).foldl (fun m cw => bump m cw.1 cw.2) []

/-- Total count `T(c) = Σ freq[c][·]` of an inner (token → count) list. -/
def total_count (wl : List (Token × Nat)) : Nat := (wl.map (fun q => q.2)).sum

/-- Number of (context, token) pairs in the map whose count equals `k`. -/
def count_count (fm : FreqMap) (k : Nat) : Nat :=
  (fm.map (fun p => p.2.countP (fun q => q.2 == k))).sum

/-- Modelled from the spec: `calc_discount_factor` (body in the missing
`.tcc`) computes `D = n1 / (n1 + 2 * n2)` where `n1`, `n2` count the ngrams
appearing exactly once and exactly twice, defaulting to `0` when there are
none (no division by zero). -/
def calc_discount_factor (fm : FreqMap) : ℚ :=
  let n1 := count_count fm 1
  let n2 := count_count fm 2
  if n1 + 2 * n2 = 0 then 0 else (n1 : ℚ) / ((n1 : ℚ) + 2 * (n2 : ℚ))

/-- The absolute-discounting probability of one continuation:
`max(cnt - D, 0) / T + (D / T) * S * plow`, with `T = T(c)`, `S = |S(c)|`
and `plow` the lower-order model's probability of the token. -/
def ad_prob (D T S plow : ℚ) (cnt : Nat) : ℚ :=
  max ((cnt : ℚ) - D) 0 / T + D / T * S * plow

/-- Modelled from the spec: `calc_dist` (body in the missing `.tcc`) converts
frequency counts, the order's discount and the lower-order model's probability
query into the fully materialized probability table
`P(w|c) = max(freq[c][w] - D, 0) / T(c) + (D / T(c)) * |S(c)| * p_lower(w)`. -/
def calc_dist (fm : FreqMap) (D : ℚ) (plower : Token → ℚ) : ProbMap :=
  fm.map (fun p =>
    (p.1, p.2.map (fun q =>
      (q.1, ad_prob D (total_count p.2) (p.2.length) (plower q.1) q.2))))

/-- `ngram_distribution<0>::prob` (from the header, inline): the order-0
terminal model reports probability zero for every token. -/
def zero_prob (_str : Token) : ℚ := 0

/-- `ngram_distribution<0>::dist_` (from the header): the order-0 model's
(fake) underlying distribution, an empty `ProbMap` that is never written. -/
def zero_dist : ProbMap := []

/-- `ngram_distribution<0>::kth_distribution` (from the header, inline):
returns `dist_` whatever `k` is — the argument is ignored. -/
def zero_kth_distribution (_k : Nat) : ProbMap := zero_dist

/-- Probability table query: the stored value when both context and token are
present, `0` otherwise. -/
def dist_prob (pm : ProbMap) (c : Context) (w : Token) : ℚ :=
  match lookupA pm c with
  | none => 0
  | some wl => (lookupA wl w).getD 0

/-- The finished order-`k` probability table of the model chain trained on
`tokens`: order 0 is the empty terminal table; order 1 backs off to
`zero_prob`; order `k+2` backs off to the order-`k+1` model's probability of
the bare token resolved against that model's own top-order table (context
`[]`, i.e. the empty rest of a one-token ngram). -/
def levelDist (tokens : List Token) : Nat → ProbMap
  | 0 => []
  | 1 =>
      let fm := calc_freqs 1 tokens
      calc_dist fm (calc_discount_factor fm) zero_prob
  | k + 2 =>
      let fm := calc_freqs (k + 2) tokens
      calc_dist fm (calc_discount_factor fm)
        (fun w => dist_prob (levelDist tokens (k + 1)) (to_prev []) w)

/-- `prob(prev, word)` of the order-`n` model trained on `tokens`. -/
def prob (n : Nat) (tokens : List Token) (prev : Context) (word : Token) : ℚ :=
  dist_prob (levelDist tokens n) prev word

/-- Modelled from the spec: `kth_distribution` of the order-`n` model (body in
the missing `.tcc`): the finished table for `1 ≤ k ≤ n`, the empty table for
`k = 0`, and a loud contract-violation failure for `k > n`. -/
def kth_distribution (n : Nat) (tokens : List Token) (k : Nat) :
    Except String ProbMap :=
  if n < k then Except.error "kth_distribution: order out of range"
  else Except.ok (levelDist tokens k)

/-- Lexicographic order on distribution entries — by token, then by
probability: the fixed, explicitly defined stable iteration order for
sampling, independent of map enumeration order. -/
def pair_le (a b : Token × ℚ) : Prop :=
  a.1 < b.1 ∨ (a.1 = b.1 ∧ a.2 ≤ b.2)

instance : DecidableRel pair_le := fun _a _b =>
  inferInstanceAs (Decidable (_ ∨ _))

instance : IsTotal (Token × ℚ) pair_le where
  total a b := by
    rcases lt_trichotomy a.1 b.1 with h | h | h
    · exact Or.inl (Or.inl h)
    · rcases le_total a.2 b.2 with h2 | h2
      · exact Or.inl (Or.inr ⟨h, h2⟩)
      · exact Or.inr (Or.inr ⟨h.symm, h2⟩)
    · exact Or.inr (Or.inl h)

instance : IsTrans (Token × ℚ) pair_le where
  trans a b c hab hbc := by
    rcases hab with h1 | ⟨e1, l1⟩
    · rcases hbc with h2 | ⟨e2, l2⟩
      · exact Or.inl (h1.trans h2)
      · exact Or.inl (e2 ▸ h1)
    · rcases hbc with h2 | ⟨e2, l2⟩
      · exact Or.inl (e1 ▸ h2)
      · exact Or.inr ⟨e1.trans e2, l1.trans l2⟩

instance : IsAntisymm (Token × ℚ) pair_le where
  antisymm a b hab hba := by
    rcases hab with h1 | ⟨e1, l1⟩
    · rcases hba with h2 | ⟨e2, l2⟩
      · exact absurd (h1.trans h2) (lt_irrefl _)
      · rw [e2] at h1
        exact absurd h1 (lt_irrefl _)
    · rcases hba with h2 | ⟨e2, l2⟩
      · rw [e1] at h2
        exact absurd h2 (lt_irrefl _)
      · exact Prod.ext e1 (le_antisymm l1 l2)

/-- A distribution's entries in the fixed stable order. -/
def sort_dist (l : List (Token × ℚ)) : List (Token × ℚ) :=
  l.insertionSort pair_le

/-- Inverse-CDF walk: the first entry whose accumulated probability mass
exceeds the draw, falling back to the final entry. -/
def pick (r : ℚ) : List (Token × ℚ) → Token
  | [] => ""
  | [q] => q.1
  | q :: t => if r < q.2 then q.1 else pick (r - q.2) t

/-- Modelled from the spec: `get_word` (body in the missing `.tcc`) selects a
token from a distribution given a uniform random number in [0,1], by
inverse-CDF accumulation over the tokens iterated in the fixed stable order. -/
def get_word (r : ℚ) (dist : List (Token × ℚ)) : Token :=
  pick r (sort_dist dist)

/-- Modelled from the spec: a deterministic linear congruential generator
stands in for the implementation's random generator, seeded once per
`random_sentence` call (never ambient process-wide state). -/
def next_rand (s : Nat) : Nat := (1103515245 * s + 12345) % 2147483648

/-- The uniform draw in [0,1) derived from the current generator state. -/
def rand_unit (s : Nat) : ℚ := (next_rand s : ℚ) / 2147483648

/-- The known contexts of a table, in the fixed lexicographic order. -/
def sorted_contexts (pm : ProbMap) : List Context :=
  (pm.map (fun p => p.1)).insertionSort (· ≤ ·)

/-- Modelled from the spec: `random_sentence` (body in the missing `.tcc`):
the generator is seeded once at call start; each step draws a uniform value,
falls back to a fresh context chosen by inverse-CDF over the known contexts
when the current context was never observed, selects a token with `get_word`,
and slides the context window to the last `n-1` emitted tokens. -/
def random_sentence (n : Nat) (tokens : List Token) (seed num_words : Nat) :
    List Token :=
  let pm := levelDist tokens n
  ((List.range num_words).foldl
    (fun st _ =>
      let r := rand_unit st.2.1
      let ctx :=
        if (lookupA pm st.2.2).isSome then st.2.2
        else (sorted_contexts pm).getD
          ((Int.floor (r * ((sorted_contexts pm).length : ℚ))).toNat) []
      let w := get_word r ((lookupA pm ctx).getD [])
      (st.1 ++ [w], next_rand st.2.1, (ctx ++ [w]).drop (ctx.length + 2 - n)))
    ([], seed, [])).1

/-- The number of n-gram windows scored by the scorer on a document. -/
def tokens_scored (n : Nat) (doc : List Token) : Nat := (windows n doc).length

/-- Modelled from the spec: `log_likelihood` (body in the missing `.tcc`) sums
`log(prob(context, token))` over every n-gram window of the document. -/
noncomputable def log_likelihood (n : Nat) (tokens doc : List Token) : ℝ :=
  ((windows n doc).map
    (fun cw => Real.log ((prob n tokens cw.1 cw.2 : ℚ) : ℝ))).sum

/-- Modelled from the spec: `perplexity` (body in the missing `.tcc`) is
`exp(-log_likelihood / tokens_scored)`. -/
noncomputable def perplexity (n : Nat) (tokens doc : List Token) : ℝ :=
  Real.exp (-(log_likelihood n tokens doc) / (tokens_scored n doc : ℝ))

/-! ## Helper lemmas -/

theorem lookupA_map {α β γ : Type} [DecidableEq α] (h : α × β → γ)
    (l : List (α × β)) (k : α) :
    lookupA (l.map (fun p => (p.1, h p))) k
      = (lookupA l k).map (fun b => h (k, b)) := by
  induction l with
  | nil => rfl
  | cons p t ih =>
      obtain ⟨a, b⟩ := p
      by_cases hp : a = k
      · subst hp; simp [lookupA]
      · simp [lookupA, hp, ih]

theorem calc_dist_lookup (fm : FreqMap) (D : ℚ) (pl : Token → ℚ)
    {c : Context} {wl : List (Token × Nat)} {w : Token} {cnt : Nat}
    (hc : lookupA fm c = some wl) (hw : lookupA wl w = some cnt) :
    dist_prob (calc_dist fm D pl) c w
      = ad_prob D (total_count wl) (wl.length) (pl w) cnt := by
  unfold dist_prob calc_dist
  rw [lookupA_map
      (fun p => p.2.map (fun q =>
        (q.1, ad_prob D (total_count p.2) (p.2.length) (pl q.1) q.2))) fm c,
    hc]
  simp only [Option.map_some']
  rw [lookupA_map
      (fun q => ad_prob D (total_count wl) (wl.length) (pl q.1) q.2) wl w, hw]
  rfl

theorem levelDist_succ (tokens : List Token) (k : Nat) :
    levelDist tokens (k + 1)
      = calc_dist (calc_freqs (k + 1) tokens)
          (calc_discount_factor (calc_freqs (k + 1) tokens))
          (fun w => dist_prob (levelDist tokens k) (to_prev []) w) := by
  cases k with
  | zero => rfl
  | succ j => rfl

theorem levelDist_lookup (tokens : List Token) (k : Nat)
    {c : Context} {wl : List (Token × Nat)} {w : Token} {cnt : Nat}
    (hc : lookupA (calc_freqs (k + 1) tokens) c = some wl)
    (hw : lookupA wl w = some cnt) :
    dist_prob (levelDist tokens (k + 1)) c w
      = ad_prob (calc_discount_factor (calc_freqs (k + 1) tokens))
          (total_count wl) (wl.length)
          (dist_prob (levelDist tokens k) (to_prev []) w) cnt := by
  rw [levelDist_succ]
  exact calc_dist_lookup _ _ _ hc hw

theorem windows_eq_nil {n : Nat} {toks : List Token} (h : toks.length < n) :
    windows n toks = [] := by
  cases toks with
  | nil => rfl
  | cons t ts =>
      simp only [windows]
      rw [if_pos (Or.inr h)]

/-! ## Claims -/

/-- Claim C1: for every trained model of order `n ≥ 1` and every context `c`
observed in training with observed continuation list `wl` (so `|S(c)| =
wl.length` and `T(c) = total_count wl`), the stored probability of token `w`
given `c` equals `max(freq[c][w] - D, 0) / T(c) + (D / T(c)) * |S(c)| *
p_lower(w)`, where `D` is that order's discount and `p_lower(w)` is the
order-`n-1` model's probability of `w` resolved against its own top order. -/
theorem claim_C1 (tokens : List Token) (n : Nat) (hn : 1 ≤ n)
    (c : Context) (wl : List (Token × Nat)) (w : Token) (cnt : Nat)
    (hc : lookupA (calc_freqs n tokens) c = some wl)
    (hw : lookupA wl w = some cnt) :
    prob n tokens c w
      = max ((cnt : ℚ) - calc_discount_factor (calc_freqs n tokens)) 0
            / (total_count wl : ℚ)
        + calc_discount_factor (calc_freqs n tokens) / (total_count wl : ℚ)
            * (wl.length : ℚ)
            * prob (n - 1) tokens (to_prev []) w := by
  obtain ⟨k, rfl⟩ : ∃ k, n = k + 1 := ⟨n - 1, (Nat.succ_pred_eq_of_pos hn).symm⟩
  simpa [prob, ad_prob] using levelDist_lookup tokens k hc hw

/-- Witness for C1: the order-2 model trained on `[x,y,x,y,x,y]` stores for
context `[x]` and token `y` (count 3, `T = 3`, `|S| = 1`) exactly the
absolute-discounting value. -/
theorem claim_C1_witness :
    prob 2 ["x", "y", "x", "y", "x", "y"] ["x"] "y"
      = max ((3 : ℚ)
            - calc_discount_factor (calc_freqs 2 ["x", "y", "x", "y", "x", "y"])) 0
            / (3 : ℚ)
        + calc_discount_factor (calc_freqs 2 ["x", "y", "x", "y", "x", "y"]) / (3 : ℚ)
            * (1 : ℚ)
            * prob 1 ["x", "y", "x", "y", "x", "y"] (to_prev []) "y" :=
  claim_C1 ["x", "y", "x", "y", "x", "y"] 2 (by decide) ["x"] [("y", 3)] "y" 3
    (by decide) (by decide)

/-- Claim C2: the order-0 terminal model returns probability exactly `0` for
every token, so the order-1 backoff term contributes nothing: the order-1
model's stored probability is exactly `max(freq[c][w] - D, 0) / T(c)`. -/
theorem claim_C2 :
    (∀ s : Token, zero_prob s = 0) ∧
    ∀ (tokens : List Token) (c : Context) (wl : List (Token × Nat))
      (w : Token) (cnt : Nat),
      lookupA (calc_freqs 1 tokens) c = some wl →
      lookupA wl w = some cnt →
      prob 1 tokens c w
        = max ((cnt : ℚ) - calc_discount_factor (calc_freqs 1 tokens)) 0
            / (total_count wl : ℚ) := by
  refine ⟨fun _ => rfl, fun tokens c wl w cnt hc hw => ?_⟩
  have h := levelDist_lookup tokens 0 hc hw
  simpa [prob, ad_prob, dist_prob, levelDist, lookupA] using h

/-- Witness for C2: the order-1 model trained on `[a,a]` stores for token `a`
(count 2) exactly its discounted relative frequency. -/
theorem claim_C2_witness :
    prob 1 ["a", "a"] (to_prev []) "a"
      = max ((2 : ℚ) - calc_discount_factor (calc_freqs 1 ["a", "a"])) 0
          / (2 : ℚ) :=
  claim_C2.2 ["a", "a"] (to_prev []) [("a", 2)] "a" 2 (by decide) (by decide)

/-- Claim C3: the context-key encoding is injective — distinct ordered token
sequences are stored under distinct keys, even when a token's text contains
the delimiter character — and contexts are not the naive delimiter-joined
strings (which would collide: `naive_join` conflates `["a b"]` with
`["a", "b"]`, `to_prev` does not). -/
theorem claim_C3 :
    Function.Injective to_prev ∧
    to_prev ["a b"] ≠ to_prev ["a", "b"] ∧
    naive_join ["a b"] = naive_join ["a", "b"] :=
  ⟨fun _ _ h => h, by decide, by decide⟩

/-- Witness for C3: injectivity applied at a concrete context. -/
theorem claim_C3_witness : (["tok"] : Context) = ["tok"] :=
  claim_C3.1 rfl

/-- Claim C4: `kth_distribution k` returns the finished order-`k` table for
`1 ≤ k ≤ n`, the empty table for `k = 0`, and fails loudly (a contract
violation, not a value) for `k > n`. -/
theorem claim_C4 (n : Nat) (tokens : List Token) (k : Nat) :
    (1 ≤ k → k ≤ n →
      kth_distribution n tokens k = Except.ok (levelDist tokens k)) ∧
    kth_distribution n tokens 0 = Except.ok ([] : ProbMap) ∧
    (n < k → kth_distribution n tokens k
        = Except.error "kth_distribution: order out of range") := by
  refine ⟨fun _ hk => ?_, ?_, fun hk => ?_⟩
  · rw [kth_distribution, if_neg (by omega)]
  · rw [kth_distribution, if_neg (by omega)]
    rfl
  · rw [kth_distribution, if_pos hk]

/-- Witness for C4: order-2 model on `[x,y]`: `k = 1` returns the finished
table, `k = 0` the empty table, `k = 3` the loud error. -/
theorem claim_C4_witness :
    kth_distribution 2 ["x", "y"] 1 = Except.ok (levelDist ["x", "y"] 1) ∧
    kth_distribution 2 ["x", "y"] 0 = Except.ok ([] : ProbMap) ∧
    kth_distribution 2 ["x", "y"] 3
      = Except.error "kth_distribution: order out of range" :=
  ⟨(claim_C4 2 ["x", "y"] 1).1 (by decide) (by decide),
   (claim_C4 2 ["x", "y"] 0).2.1,
   (claim_C4 2 ["x", "y"] 3).2.2 (by decide)⟩

/-- Counterexample for C5: training an order-2 model on `[a,b]` gives one
bigram with count 1, so `n1 = 1`, `n2 = 0` and the discount is
`1 / (1 + 0) = 1`, violating the claimed strict bound `D < 1`. -/
theorem claim_C5_counterexample :
    calc_discount_factor (calc_freqs 2 ["a", "b"]) = 1 ∧
    ¬ calc_discount_factor (calc_freqs 2 ["a", "b"]) < 1 := by
  norm_num [calc_discount_factor, calc_freqs, windows, to_prev, bump, bump_inner,
    count_count]

/-- Claim C5 (amended): the discount equals `n1 / (n1 + 2*n2)` when
`n1 + n2 ≠ 0`, equals `0` when `n1 + n2 = 0` (no division by zero), and
always satisfies `0 ≤ D ≤ 1`; the upper bound is attained (is not strict)
exactly when `n2 = 0 < n1`. -/
theorem claim_C5_amended (fm : FreqMap) :
    (count_count fm 1 + count_count fm 2 = 0 → calc_discount_factor fm = 0) ∧
    (count_count fm 1 + count_count fm 2 ≠ 0 →
      calc_discount_factor fm
        = (count_count fm 1 : ℚ)
            / ((count_count fm 1 : ℚ) + 2 * (count_count fm 2 : ℚ))) ∧
    0 ≤ calc_discount_factor fm ∧ calc_discount_factor fm ≤ 1 := by
  by_cases h : count_count fm 1 + 2 * count_count fm 2 = 0
  · have h0 : calc_discount_factor fm = 0 := by
      simp only [calc_discount_factor, if_pos h]
    refine ⟨fun _ => h0, fun hne => absurd (by omega) hne, ?_, ?_⟩
    · rw [h0]
    · rw [h0]; norm_num
  · have hform : calc_discount_factor fm
        = (count_count fm 1 : ℚ)
            / ((count_count fm 1 : ℚ) + 2 * (count_count fm 2 : ℚ)) := by
      simp only [calc_discount_factor, if_neg h]
    have hN : 0 < count_count fm 1 + 2 * count_count fm 2 :=
      Nat.pos_of_ne_zero h
    have hpos : (0 : ℚ)
        < (count_count fm 1 : ℚ) + 2 * (count_count fm 2 : ℚ) := by
      exact_mod_cast hN
    refine ⟨fun hz => absurd (by omega : count_count fm 1 + 2 * count_count fm 2 = 0) h,
      fun _ => hform, ?_, ?_⟩
    · rw [hform]
      exact div_nonneg (by positivity) hpos.le
    · rw [hform]
      refine (div_le_one hpos).mpr ?_
      have : (0 : ℚ) ≤ 2 * (count_count fm 2 : ℚ) := by positivity
      linarith

/-- Witness for C5 (amended): the order-2 model on `[a,b]` has `n1 + n2 ≠ 0`,
so the formula applies and the bounds hold there. -/
theorem claim_C5_witness :
    calc_discount_factor (calc_freqs 2 ["a", "b"])
      = (count_count (calc_freqs 2 ["a", "b"]) 1 : ℚ)
          / ((count_count (calc_freqs 2 ["a", "b"]) 1 : ℚ)
             + 2 * (count_count (calc_freqs 2 ["a", "b"]) 2 : ℚ)) ∧
    0 ≤ calc_discount_factor (calc_freqs 2 ["a", "b"]) ∧
    calc_discount_factor (calc_freqs 2 ["a", "b"]) ≤ 1 :=
  ⟨(claim_C5_amended (calc_freqs 2 ["a", "b"])).2.1 (by decide),
   (claim_C5_amended (calc_freqs 2 ["a", "b"])).2.2.1,
   (claim_C5_amended (calc_freqs 2 ["a", "b"])).2.2.2⟩

/-- Claim C6: `prob(context, token)` returns the stored value when the context
(and token) was observed in training and exactly `0` when the context was
never observed — no error, no lookup-time backoff; in particular
`prob("x","z")` after training order 2 on `[x,y,x,y,x,y]` is exactly `0`. -/
theorem claim_C6 :
    (∀ (n : Nat) (tokens : List Token) (c : Context) (w : Token),
        lookupA (levelDist tokens n) c = none → prob n tokens c w = 0) ∧
    (∀ (n : Nat) (tokens : List Token) (c : Context) (w : Token)
        (wl : List (Token × ℚ)) (q : ℚ),
        lookupA (levelDist tokens n) c = some wl →
        lookupA wl w = some q → prob n tokens c w = q) ∧
    prob 2 ["x", "y", "x", "y", "x", "y"] ["x"] "z" = 0 := by
  refine ⟨?_, ?_, by decide⟩
  · intro n tokens c w h
    simp [prob, dist_prob, h]
  · intro n tokens c w wl q hc hw
    simp [prob, dist_prob, hc, hw]

/-- Witness for C6: a never-observed context yields `0`; an observed
(context, token) pair yields its stored value. -/
theorem claim_C6_witness :
    prob 1 ["a", "a"] ["zz"] "a" = 0 ∧
    prob 2 ["x", "y", "x", "y", "x", "y"] ["x"] "y" = 1 :=
  ⟨claim_C6.1 1 ["a", "a"] ["zz"] "a" (by decide),
   claim_C6.2.1 2 ["x", "y", "x", "y", "x", "y"] ["x"] "y" [("y", 1)] 1
     (by norm_num [levelDist, calc_dist, calc_freqs, windows, to_prev, bump,
       bump_inner, calc_discount_factor, count_count, total_count, ad_prob,
       zero_prob, dist_prob, lookupA])
     (by norm_num [lookupA])⟩

/-- Counterexample for C9: training the order-3 chain on the single-token
document `[a]` does not leave the order-1 table empty — the unigram level
sees one window of width 1, so `kth_distribution 1` holds the token `a`
(with discounted probability 0), contradicting the claim that
`kth_distribution(1)` is empty. -/
theorem claim_C9_counterexample :
    levelDist ["a"] 1 = [([], [("a", (0 : ℚ))])] ∧
    kth_distribution 3 ["a"] 1 ≠ Except.ok ([] : ProbMap) := by
  have h1 : levelDist ["a"] 1 = [([], [("a", (0 : ℚ))])] := by
    norm_num [levelDist, calc_dist, calc_freqs, windows, to_prev, bump,
      bump_inner, calc_discount_factor, count_count, total_count, ad_prob,
      zero_prob]
  refine ⟨h1, fun h => ?_⟩
  rw [kth_distribution, if_neg (by omega)] at h
  rw [h1] at h
  simp at h

/-- Claim C9 (amended): a training document shorter than the order yields an
empty frequency map (not an error), an empty probability table at that order,
and a default discount of 0; training the order-3 chain on a single-token
document leaves orders 3 and 2 empty, while order 1 — for which the document
is not shorter than the window — holds the single token. -/
theorem claim_C9_amended :
    (∀ (n : Nat) (tokens : List Token), tokens.length < n →
      calc_freqs n tokens = [] ∧ levelDist tokens n = [] ∧
      calc_discount_factor (calc_freqs n tokens) = 0) ∧
    levelDist ["a"] 3 = [] ∧ levelDist ["a"] 2 = [] ∧
    levelDist ["a"] 1 = [([], [("a", (0 : ℚ))])] := by
  refine ⟨?_, by decide, by decide, by
    norm_num [levelDist, calc_dist, calc_freqs, windows, to_prev, bump,
      bump_inner, calc_discount_factor, count_count, total_count, ad_prob,
      zero_prob]⟩
  intro n tokens h
  have hf : calc_freqs n tokens = [] := by
    simp [calc_freqs, windows_eq_nil h]
  refine ⟨hf, ?_, by simp [calc_discount_factor, hf, count_count]⟩
  cases n with
  | zero => rfl
  | succ k =>
      rw [levelDist_succ, hf]
      rfl

/-- Witness for C9 (amended): an order-2 model on the single-token document
`[q]` has empty frequency map, empty table and discount 0. -/
theorem claim_C9_witness :
    calc_freqs 2 ["q"] = [] ∧ levelDist ["q"] 2 = [] ∧
    calc_discount_factor (calc_freqs 2 ["q"]) = 0 :=
  claim_C9_amended.1 2 ["q"] (by decide)

/-- Claim C10: the order-0 terminal model's `kth_distribution` returns the
same empty probability table (`dist_`) for every value of `k`, including
`k > 0`: the argument is ignored and no error is ever raised. -/
theorem claim_C10 :
    ∀ k : Nat, zero_kth_distribution k = zero_dist ∧ zero_dist = ([] : ProbMap) :=
  fun _ => ⟨rfl, rfl⟩


/-- Claim C7: for every trained model and every document with at least one
scored n-gram window, `perplexity` equals exactly
`exp(-log_likelihood / tokens_scored)`, where `tokens_scored` is the number
of n-gram windows scored by `log_likelihood`. -/
theorem claim_C7 (n : Nat) (tokens doc : List Token)
    (_h : 0 < tokens_scored n doc) :
    perplexity n tokens doc
      = Real.exp (-(log_likelihood n tokens doc)
          / (tokens_scored n doc : ℝ)) :=
  rfl

/-- Witness for C7: the order-2 model on `[x,y]` scoring `[x,y,x]`
(two scored windows). -/
theorem claim_C7_witness :
    0 < tokens_scored 2 ["x", "y", "x"] ∧
    perplexity 2 ["x", "y"] ["x", "y", "x"]
      = Real.exp (-(log_likelihood 2 ["x", "y"] ["x", "y", "x"])
          / (tokens_scored 2 ["x", "y", "x"] : ℝ)) :=
  ⟨by decide, claim_C7 2 ["x", "y"] ["x", "y", "x"] (by decide)⟩

/-- Claim C8: generation is deterministic for a fixed (model, seed, count):
in the embedding `random_sentence` is a pure function of those inputs, and
the inverse-CDF selection `get_word` iterates the distribution's tokens in a
fixed, explicitly defined stable order independent of map enumeration order —
it returns the same token for any two enumeration orders (permutations) of
the same distribution. -/
theorem claim_C8 (r : ℚ) (l₁ l₂ : List (Token × ℚ)) (h : l₁.Perm l₂) :
    get_word r l₁ = get_word r l₂ := by
  have hs : sort_dist l₁ = sort_dist l₂ :=
    List.eq_of_perm_of_sorted
      ((List.perm_insertionSort pair_le l₁).trans
        (h.trans (List.perm_insertionSort pair_le l₂).symm))
      (List.sorted_insertionSort pair_le l₁)
      (List.sorted_insertionSort pair_le l₂)
  unfold get_word
  rw [hs]

/-- Witness for C8: two enumeration orders of the same two-token
distribution select the same token. -/
theorem claim_C8_witness :
    get_word (1/2 : ℚ) [("b", (1 : ℚ)), ("a", 0)]
      = get_word (1/2 : ℚ) [("a", (0 : ℚ)), ("b", 1)] :=
  claim_C8 (1/2) _ _ (List.Perm.swap ("a", (0 : ℚ)) ("b", (1 : ℚ)) [])
